import Mathlib

/-!
Shallow embedding of `src/strikethrough.py`: a background utility that binds
two global hotkeys. The activation hotkey (`<cmd>+<alt>+s`) injects the fixed
keystroke sequence `~ ~ ← ←` (press+release each) to produce Markdown
strikethrough syntax with the cursor between the two tildes; the exit hotkey
(`<ctrl>+<cmd>+q`) stops the listener.

The script's own code (the two callbacks, the two hotkey strings, the startup
prints) is embedded directly from the source. The surrounding hook facility
(pynput's `GlobalHotKeys` listener) is not part of the repository, so its
dispatch semantics are modelled from the spec where marked.
-/

namespace Strikethrough

/-- Keys as the script uses them: printable characters (the script injects `~`
and binds the literal keys `s` and `q`), the left-arrow special key, and the
modifier keys named by the hotkey strings at src/strikethrough.py lines 11 and 46. -/
inductive PKey where
  | char (c : Char)
  | left
  | cmd
  | alt
  | ctrl
  | shift
deriving DecidableEq

/-- A discrete key event: a press or a release of one key. -/
inductive KEvent where
  | press (k : PKey)
  | release (k : PKey)
deriving DecidableEq

/-- One observable primitive action performed by a callback body, in program
order: a `print` to standard output, a `time.sleep` (milliseconds), or an
injected synthetic key event (`kb_controller.press`/`release`). -/
inductive Act where
  | print (s : String)
  | sleep_ms (n : Nat)
  | key (e : KEvent)
deriving DecidableEq

/-- A hotkey callback: the ordered actions its body performs, and whether it
returns `False` (which signals the listener to stop). -/
structure Callback where
  acts : List Act
  stops : Bool
deriving DecidableEq

/-- Callback `on_activate`, src/strikethrough.py lines 13-30: prints a notice, sleeps
0.05 s, then presses and releases `~` twice and the left arrow twice, in that
order. It has no `return`, so it does not return `False`. -/
def on_activate : Callback :=
  { acts :=
      [ .print "Hotkey activated. Typing strikethrough."
      , .sleep_ms 50
      , .key (.press (.char '~')), .key (.release (.char '~'))
      , .key (.press (.char '~')), .key (.release (.char '~'))
      , .key (.press .left), .key (.release .left)
      , .key (.press .left), .key (.release .left) ]
  , stops := false }

/-- Callback `for_exit`, src/strikethrough.py lines 32-35: prints the exit notice and
returns `False` to stop the listener. -/
def for_exit : Callback :=
  { acts := [ .print "Exiting strikethrough script." ]
  , stops := true }

/-- Constant `HOTKEY`, src/strikethrough.py line 11. -/
def HOTKEY : String := "<cmd>+<alt>+s"

/-- The exit hotkey string, inline at src/strikethrough.py line 46. -/
def EXIT_HOTKEY : String := "<ctrl>+<cmd>+q"

/-- Split a character list on the `+` delimiter of hotkey strings. -/
def splitPlus : List Char → List (List Char)
  | [] => [[]]
  | '+' :: rest => [] :: splitPlus rest
  | c :: rest =>
    match splitPlus rest with
    | [] => [[c]]
    | t :: ts => (c :: t) :: ts

/-- Modelled from the spec: one token of the hotkey-string convention of the
OS hook facility (pynput `HotKey.parse`, not part of this repository) — the
modifier tokens `<cmd>`, `<alt>`, `<ctrl>`, `<shift>`, or a literal
single-character key. -/
def parseKeyToken (t : List Char) : Option PKey :=
  if t = "<cmd>".data then some .cmd
  else if t = "<alt>".data then some .alt
  else if t = "<ctrl>".data then some .ctrl
  else if t = "<shift>".data then some .shift
  else
    match t with
    | [c] => some (.char c)
    | _ => none

/-- Modelled from the spec: a hotkey string denotes the set of keys obtained
by splitting on `+` and reading each token. -/
def parseCombo (s : String) : Option (List PKey) :=
  (splitPlus s.data).mapM parseKeyToken

/-- The two-entry hotkey-to-callback map passed to the listener at
src/strikethrough.py lines 44-47. -/
def hotkeyMap : List (String × Callback) :=
  [ (HOTKEY, on_activate), (EXIT_HOTKEY, for_exit) ]

/-- The key set of the activation combination: Command+Option+`s`. -/
def ACT_KEYS : List PKey := [.cmd, .alt, .char 's']

/-- The key set of the exit combination: Control+Command+`q`. -/
def EXIT_KEYS : List PKey := [.ctrl, .cmd, .char 'q']

/-- The listener's registered bindings, each hotkey string parsed to its key
set (as the hook facility does on construction). -/
def parsedCfg : List (List PKey × Callback) :=
  hotkeyMap.filterMap fun b => (parseCombo b.1).map fun ks => (ks, b.2)

/-- Whether an observed held-key set `combo` matches a binding's key set
`keys`: the two lists contain the same keys (the hook facility compares key
sets). -/
def comboMatches (keys combo : List PKey) : Bool :=
  keys.all (fun k => decide (k ∈ combo)) && combo.all (fun k => decide (k ∈ keys))

/-- The listener's two modes: `Listening` (initial) and `Stopped` (terminal). -/
inductive LMode where
  | Listening
  | Stopped
deriving DecidableEq

/-- The listener's state: its (fixed) binding configuration and its mode. -/
structure LSt where
  cfg : List (List PKey × Callback)
  mode : LMode
deriving DecidableEq

/-- An input observed while listening: a fully-held key combination, or an
external interrupt signal delivered during the blocking wait. -/
inductive InEvent where
  | combo (ks : List PKey)
  | interrupt
deriving DecidableEq

/-- The result of handling one input: the successor state, the actions the
dispatched callback performed, and whether an interrupt escaped uncaught. -/
structure StepOut where
  st : LSt
  acts : List Act
  uncaught : Bool
deriving DecidableEq

/-- Modelled from the spec: the hook facility's dispatch, which is not part of
this repository. While listening, a held key set matching a registered
binding runs that binding's callback (a callback returning `False` stops the
listener); a non-matching key set does nothing. The script installs no
handler for an external interrupt (no try/except at src/strikethrough.py
lines 38-48), so an interrupt during the blocking wait exits the listener's
scoped context and propagates uncaught. A stopped listener handles nothing. -/
def dispatch (s : LSt) (e : InEvent) : StepOut :=
  match s.mode with
  | .Stopped => ⟨s, [], false⟩
  | .Listening =>
    match e with
    | .interrupt => ⟨{ s with mode := .Stopped }, [], true⟩
    | .combo ks =>
      match s.cfg.find? (fun b => comboMatches b.1 ks) with
      | none => ⟨s, [], false⟩
      | some b =>
        ⟨{ s with mode := if b.2.stops then .Stopped else .Listening }, b.2.acts, false⟩

/-- The cumulative outcome of a run: all actions performed, the final
listener state, and whether an uncaught interrupt ended the run. -/
structure RunOut where
  acts : List Act
  st : LSt
  uncaught : Bool
deriving DecidableEq

/-- Run the listener over a finite input trace. An uncaught interrupt aborts
the rest of the trace (the process terminates with the fault). -/
def runFrom : LSt → List InEvent → RunOut
  | s, [] => ⟨[], s, false⟩
  | s, e :: rest =>
    let o := dispatch s e
    if o.uncaught then ⟨o.acts, o.st, true⟩
    else
      let r := runFrom o.st rest
      ⟨o.acts ++ r.acts, r.st, r.uncaught⟩

/-- The listener's initial state: both bindings registered, `Listening`. -/
def initSt : LSt := ⟨parsedCfg, .Listening⟩

/-- The three startup lines printed at src/strikethrough.py lines 39-41 (the
second is an f-string interpolating `HOTKEY`). -/
def startupLines : List String :=
  [ "Strikethrough script running in the background."
  , "Listening for hotkey: " ++ HOTKEY
  , "Press Ctrl+C in this terminal to stop the script." ]

/-- The whole program, src/strikethrough.py lines 38-48: print the three
startup lines, register the two bindings, then listen over the input trace. -/
def runMain (evs : List InEvent) : RunOut :=
  let r := runFrom initSt evs
  ⟨startupLines.map Act.print ++ r.acts, r.st, r.uncaught⟩

/-- The lines a list of actions prints, in order. -/
def printedActs (acts : List Act) : List String :=
  acts.filterMap fun a => match a with | .print s => some s | _ => none

/-- The key events a list of actions injects, in order. -/
def keyActs (acts : List Act) : List KEvent :=
  acts.filterMap fun a => match a with | .key e => some e | _ => none

/-- The sleeps a list of actions performs, in milliseconds, in order. -/
def sleepActs (acts : List Act) : List Nat :=
  acts.filterMap fun a => match a with | .sleep_ms n => some n | _ => none

/-- The total delay (ms) an action list spends before its first injected key
event. -/
def delayBefFirstKey (acts : List Act) : Nat :=
  (sleepActs (acts.takeWhile fun a => match a with | .key _ => false | _ => true)).sum

/-- A focused text field: its contents and the cursor position (an index into
`text`, 0 at the far left). -/
structure TextField where
  text : List Char
  cursor : Nat
deriving DecidableEq

/-- Modelled from the spec: how a focused text field interprets one discrete
key event (the receiving application is outside this repository) — a
printable-character press inserts the character at the cursor and advances
it; a left-arrow press moves the cursor one position left, floored at 0;
releases and modifier presses change nothing. -/
def applyKey (tf : TextField) (e : KEvent) : TextField :=
  match e with
  | .press (.char c) =>
    ⟨tf.text.take tf.cursor ++ c :: tf.text.drop tf.cursor, tf.cursor + 1⟩
  | .press .left => ⟨tf.text, tf.cursor - 1⟩
  | _ => tf

/-- Interpret a sequence of key events against a text field, left to right. -/
def applyKeys (tf : TextField) (es : List KEvent) : TextField :=
  es.foldl applyKey tf

/-- The faults the OS can raise at the program: denial of global hook
registration, or denial of synthetic input injection. -/
inductive PFault where
  | hookDenied
  | injectionDenied
deriving DecidableEq

/-- Modelled from the spec: constructing the listener registers the hook
once; the script wraps the construction at src/strikethrough.py lines 44-47
in no handler and never retries, so a denial propagates as the fault itself. -/
def registerHotkeys (hookOk : Bool) : Except PFault (List (List PKey × Callback)) :=
  if hookOk then .ok parsedCfg else .error .hookDenied

/-- Modelled from the spec: run a callback's actions in an environment that
either permits synthetic injection (`injOk = true`) or denies it. Each
injected key event is one attempt; the first denied attempt raises
`injectionDenied`, which no code in the script catches, so nothing further
runs and nothing is retried. Returns the number of injection attempts made
and the fault, if any. -/
def runActsF : List Act → Bool → Nat × Option PFault
  | [], _ => (0, none)
  | .key _ :: _, false => (1, some .injectionDenied)
  | .key _ :: rest, true =>
    let r := runActsF rest true
    (r.1 + 1, r.2)
  | .print _ :: rest, injOk => runActsF rest injOk
  | .sleep_ms _ :: rest, injOk => runActsF rest injOk

/-- Whether, on a given input trace, the exit combination fires (i.e. the
listener dispatches a stopping callback) before the trace ends or an
interrupt arrives. -/
def firesExit : List InEvent → Bool
  | [] => false
  | .interrupt :: _ => false
  | .combo ks :: rest =>
    match parsedCfg.find? (fun b => comboMatches b.1 ks) with
    | some b => if b.2.stops then true else firesExit rest
    | none => firesExit rest

/-! Helper lemmas shared by the claim theorems. -/

theorem parsedCfg_eq :
    parsedCfg = [(ACT_KEYS, on_activate), (EXIT_KEYS, for_exit)] := by decide

theorem dispatch_act_combo :
    dispatch initSt (.combo ACT_KEYS) = ⟨initSt, on_activate.acts, false⟩ := by decide

theorem dispatch_exit_combo :
    dispatch initSt (.combo EXIT_KEYS) = ⟨⟨parsedCfg, .Stopped⟩, for_exit.acts, false⟩ := by
  decide

theorem dispatch_cfg_const (s : LSt) (e : InEvent) : (dispatch s e).st.cfg = s.cfg := by
  cases s with
  | mk cfg mode =>
    cases mode <;> cases e <;> simp [dispatch]
    cases cfg.find? (fun b => comboMatches b.1 _) <;> simp

theorem runFrom_cfg_const (evs : List InEvent) (s : LSt) :
    (runFrom s evs).st.cfg = s.cfg := by
  induction evs generalizing s with
  | nil => rfl
  | cons e rest ih =>
    simp only [runFrom]
    by_cases h : (dispatch s e).uncaught = true
    · simp [h, dispatch_cfg_const]
    · simp only [Bool.not_eq_true] at h
      simp [h, ih, dispatch_cfg_const]

theorem runFrom_stopped (evs : List InEvent) (cfg : List (List PKey × Callback)) :
    runFrom ⟨cfg, .Stopped⟩ evs = ⟨[], ⟨cfg, .Stopped⟩, false⟩ := by
  induction evs with
  | nil => rfl
  | cons e rest ih => simp [runFrom, dispatch, ih]

theorem runFrom_replicate_act (n : Nat) :
    runFrom initSt (List.replicate n (.combo ACT_KEYS)) =
      ⟨(List.replicate n on_activate.acts).flatten, initSt, false⟩ := by
  induction n with
  | zero => rfl
  | succ m ih =>
    simp only [List.replicate_succ, runFrom, dispatch_act_combo, List.flatten]
    simp [ih]

theorem runFrom_append (l1 l2 : List InEvent) (s : LSt)
    (h : (runFrom s l1).uncaught = false) :
    runFrom s (l1 ++ l2) =
      ⟨(runFrom s l1).acts ++ (runFrom (runFrom s l1).st l2).acts,
        (runFrom (runFrom s l1).st l2).st,
        (runFrom (runFrom s l1).st l2).uncaught⟩ := by
  induction l1 generalizing s with
  | nil => simp [runFrom]
  | cons e rest ih =>
    simp only [runFrom, List.cons_append] at h ⊢
    by_cases hu : (dispatch s e).uncaught = true
    · simp [hu] at h
    · simp only [Bool.not_eq_true] at hu
      simp only [hu, if_neg Bool.false_ne_true] at h ⊢
      simp [ih _ h]

theorem comboMatches_iff (keys combo : List PKey) :
    comboMatches keys combo = true ↔ (∀ k, k ∈ keys ↔ k ∈ combo) := by
  simp only [comboMatches, Bool.and_eq_true, List.all_eq_true, decide_eq_true_eq]
  constructor
  · rintro ⟨h1, h2⟩ k
    exact ⟨fun hk => h1 k hk, fun hk => h2 k hk⟩
  · intro h
    exact ⟨fun k hk => (h k).mp hk, fun k hk => (h k).mpr hk⟩

theorem not_both_combos (ks : List PKey) (h : comboMatches ACT_KEYS ks = true) :
    comboMatches EXIT_KEYS ks = false := by
  by_contra hc
  simp only [Bool.not_eq_false] at hc
  rw [comboMatches_iff] at h hc
  have halt : PKey.alt ∈ EXIT_KEYS := (hc PKey.alt).mpr ((h PKey.alt).mp (by decide))
  exact absurd halt (by decide)

theorem printedActs_append (l1 l2 : List Act) :
    printedActs (l1 ++ l2) = printedActs l1 ++ printedActs l2 := by
  simp [printedActs, List.filterMap_append]

theorem keyActs_append (l1 l2 : List Act) :
    keyActs (l1 ++ l2) = keyActs l1 ++ keyActs l2 := by
  simp [keyActs, List.filterMap_append]

theorem keyActs_flatten_replicate (n : Nat) (acts : List Act) :
    keyActs (List.replicate n acts).flatten =
      (List.replicate n (keyActs acts)).flatten := by
  induction n with
  | zero => rfl
  | succ m ih =>
    simp only [List.replicate_succ, List.flatten_cons, keyActs_append, ih]

theorem printed_flatten_replicate_act (n : Nat) :
    printedActs (List.replicate n on_activate.acts).flatten =
      List.replicate n "Hotkey activated. Typing strikethrough." := by
  induction n with
  | zero => rfl
  | succ m ih =>
    simp only [List.replicate_succ, List.flatten_cons, printedActs_append, ih]
    rfl

theorem printedActs_map_print (l : List String) :
    printedActs (l.map Act.print) = l := by
  induction l with
  | nil => rfl
  | cons a t ih => simp [printedActs, List.filterMap_cons] at ih ⊢; exact ih

theorem runFrom_exit_single :
    runFrom initSt [InEvent.combo EXIT_KEYS] =
      ⟨for_exit.acts, ⟨parsedCfg, .Stopped⟩, false⟩ := by decide

theorem runFrom_interrupt_single :
    runFrom initSt [InEvent.interrupt] = ⟨[], ⟨parsedCfg, .Stopped⟩, true⟩ := by decide

theorem dispatch_combo_eq (ks : List PKey) :
    dispatch initSt (.combo ks) =
      match parsedCfg.find? (fun b => comboMatches b.1 ks) with
      | none => ⟨initSt, [], false⟩
      | some b =>
        ⟨⟨parsedCfg, if b.2.stops then .Stopped else .Listening⟩, b.2.acts, false⟩ := rfl

theorem dispatch_combo_not_uncaught (s : LSt) (ks : List PKey) :
    (dispatch s (.combo ks)).uncaught = false := by
  cases s with
  | mk cfg mode =>
    cases mode with
    | Stopped => rfl
    | Listening =>
      simp only [dispatch]
      cases cfg.find? (fun b => comboMatches b.1 ks) <;> rfl

theorem dispatch_combo_act (ks : List PKey)
    (hf : parsedCfg.find? (fun b => comboMatches b.1 ks) = some (ACT_KEYS, on_activate)) :
    dispatch initSt (.combo ks) = ⟨initSt, on_activate.acts, false⟩ := by
  rw [dispatch_combo_eq, hf]
  rfl

theorem dispatch_combo_exit (ks : List PKey)
    (hf : parsedCfg.find? (fun b => comboMatches b.1 ks) = some (EXIT_KEYS, for_exit)) :
    dispatch initSt (.combo ks) = ⟨⟨parsedCfg, .Stopped⟩, for_exit.acts, false⟩ := by
  rw [dispatch_combo_eq, hf]
  rfl

theorem dispatch_combo_none (ks : List PKey)
    (hf : parsedCfg.find? (fun b => comboMatches b.1 ks) = none) :
    dispatch initSt (.combo ks) = ⟨initSt, [], false⟩ := by
  rw [dispatch_combo_eq, hf]

theorem runFrom_cons_combo (ks : List PKey) (rest : List InEvent) (s : LSt) :
    runFrom s (.combo ks :: rest) =
      ⟨(dispatch s (.combo ks)).acts ++ (runFrom (dispatch s (.combo ks)).st rest).acts,
        (runFrom (dispatch s (.combo ks)).st rest).st,
        (runFrom (dispatch s (.combo ks)).st rest).uncaught⟩ := by
  simp [runFrom, dispatch_combo_not_uncaught]

theorem firesExit_cons_combo (ks : List PKey) (rest : List InEvent) :
    firesExit (.combo ks :: rest) =
      match parsedCfg.find? (fun b => comboMatches b.1 ks) with
      | some b => if b.2.stops then true else firesExit rest
      | none => firesExit rest := rfl

theorem printed_on_activate :
    printedActs on_activate.acts = ["Hotkey activated. Typing strikethrough."] := rfl

theorem exit_line_runFrom (evs : List InEvent) :
    ("Exiting strikethrough script." ∈ printedActs (runFrom initSt evs).acts) ↔
      firesExit evs = true := by
  induction evs with
  | nil => simp [runFrom, printedActs, firesExit]
  | cons e rest ih =>
    cases e with
    | interrupt => simp [runFrom, dispatch, initSt, printedActs, firesExit]
    | combo ks =>
      rw [runFrom_cons_combo, firesExit_cons_combo]
      cases hf : parsedCfg.find? (fun b => comboMatches b.1 ks) with
      | none =>
        rw [dispatch_combo_none ks hf]
        simpa using ih
      | some b =>
        have hb := List.mem_of_find?_eq_some hf
        rw [parsedCfg_eq] at hb
        simp only [List.mem_cons, List.not_mem_nil, or_false] at hb
        rcases hb with rfl | rfl
        · rw [dispatch_combo_act ks hf, printedActs_append, printed_on_activate]
          have hne : "Exiting strikethrough script." ≠
              "Hotkey activated. Typing strikethrough." := by decide
          have hstops : on_activate.stops = false := rfl
          simp [hne, ih, hstops]
        · rw [dispatch_combo_exit ks hf, runFrom_stopped, printedActs_append]
          simp [printedActs, for_exit]

/-! Claim theorems. -/

/-- C1: every activation of the registered activation combination injects
exactly the fixed eight-event sequence press `~`, release `~`, press `~`,
release `~`, press left-arrow, release left-arrow, press left-arrow, release
left-arrow, in this order; activating N times produces N identical copies of
that sequence, and the listener state after the N activations is exactly the
initial state (no shared state is mutated between invocations). -/
theorem activation_fixed_sequence :
    keyActs on_activate.acts =
      [ .press (.char '~'), .release (.char '~')
      , .press (.char '~'), .release (.char '~')
      , .press .left, .release .left
      , .press .left, .release .left ] ∧
    ∀ n : Nat,
      keyActs (runFrom initSt (List.replicate n (.combo ACT_KEYS))).acts =
        (List.replicate n (keyActs on_activate.acts)).flatten ∧
      (runFrom initSt (List.replicate n (.combo ACT_KEYS))).st = initSt := by
  refine ⟨by decide, fun n => ?_⟩
  rw [runFrom_replicate_act]
  exact ⟨keyActs_flatten_replicate n on_activate.acts, rfl⟩

/-- C3 counterexample: on a focused text field containing `hello` with the
cursor at the end (position 5), the injected sequence does NOT leave the
cursor between the two tildes (position 6): two characters are typed and the
cursor is then moved left twice, so it ends at position 5 — before both
tildes — not at 6. -/
theorem strikethrough_hello_cursor_not_between :
    applyKeys ⟨"hello".data, 5⟩ (keyActs on_activate.acts) ≠ ⟨"hello~~".data, 6⟩ ∧
    (applyKeys ⟨"hello".data, 5⟩ (keyActs on_activate.acts)).cursor = 5 := by decide

/-- C3 (amended): interpreting the injected sequence against a focused text
field that contains `hello` with the cursor at the end (position 5, the
length of `hello`), one activation leaves the field containing `hello~~`
with the cursor at position 5 — before the two tildes (logically
`hello|~~`): the text left of the cursor is `hello` and the text right of it
is `~~`. -/
theorem strikethrough_hello_scenario :
    "hello".data.length = 5 ∧
    applyKeys ⟨"hello".data, 5⟩ (keyActs on_activate.acts) = ⟨"hello~~".data, 5⟩ ∧
    "hello~~".data.take 5 = "hello".data ∧
    "hello~~".data.drop 5 = "~~".data := by decide

/-- C4: exactly two hotkey bindings exist — the activation binding maps
Command+Option+`s` (the parse of the `HOTKEY` string) to `on_activate` and
the exit binding maps Control+Command+`q` to `for_exit` — and the
configuration is immutable: after any input trace the listener's binding
configuration is still exactly these two bindings. -/
theorem two_bindings_registered :
    parseCombo HOTKEY = some ACT_KEYS ∧
    parseCombo EXIT_HOTKEY = some EXIT_KEYS ∧
    parsedCfg = [(ACT_KEYS, on_activate), (EXIT_KEYS, for_exit)] ∧
    parsedCfg.length = 2 ∧
    ∀ evs : List InEvent, (runFrom initSt evs).st.cfg = parsedCfg := by
  exact ⟨by decide, by decide, parsedCfg_eq, by decide,
    fun evs => runFrom_cfg_const evs initSt⟩

/-- C5: on every activation the delay between detection and the first
injected key event is the fixed constant 50 ms — in the tens of milliseconds
— and it is not data-dependent and does not grow with repeated activations:
the trace of N activations is N identical copies of `on_activate`'s actions,
each containing the single sleep of 50 ms before its first key event. -/
theorem activation_delay_fixed :
    delayBefFirstKey on_activate.acts = 50 ∧
    10 ≤ delayBefFirstKey on_activate.acts ∧
    delayBefFirstKey on_activate.acts < 100 ∧
    sleepActs on_activate.acts = [50] ∧
    ∀ n : Nat,
      (runFrom initSt (List.replicate n (.combo ACT_KEYS))).acts =
        (List.replicate n on_activate.acts).flatten := by
  refine ⟨by decide, by decide, by decide, by decide, fun n => ?_⟩
  rw [runFrom_replicate_act]

/-- C6: a key combination that matches neither registered binding is a
complete no-op: the dispatch injects no events, prints nothing, raises
nothing, and leaves the listener state (both the binding configuration and
the mode) exactly unchanged. -/
theorem nonmatching_combo_noop (ks : List PKey)
    (h1 : comboMatches ACT_KEYS ks = false)
    (h2 : comboMatches EXIT_KEYS ks = false) :
    dispatch initSt (.combo ks) = ⟨initSt, [], false⟩ := by
  show (match parsedCfg.find? (fun b => comboMatches b.1 ks) with
    | none => (⟨initSt, [], false⟩ : StepOut)
    | some b =>
      ⟨{ initSt with mode := if b.2.stops then .Stopped else .Listening },
        b.2.acts, false⟩) = ⟨initSt, [], false⟩
  rw [parsedCfg_eq]
  simp [List.find?, h1, h2]

/-- C6 witness: the single key `a` matches neither binding, and dispatching
it is a no-op. -/
theorem nonmatching_combo_noop_witness :
    comboMatches ACT_KEYS [PKey.char 'a'] = false ∧
    comboMatches EXIT_KEYS [PKey.char 'a'] = false ∧
    dispatch initSt (.combo [PKey.char 'a']) = ⟨initSt, [], false⟩ :=
  ⟨by decide, by decide, nonmatching_combo_noop [PKey.char 'a'] (by decide) (by decide)⟩

/-- C9: an OS denial is never caught, translated or retried: a denied hook
registration propagates as the fault itself (and the registration is
attempted exactly once, with no fallback), and when injection is denied the
activation body makes exactly one injection attempt, the fault propagates,
and nothing further runs — against the eight attempts of a permitted run. -/
theorem os_denial_propagates_unretried :
    registerHotkeys false = Except.error PFault.hookDenied ∧
    registerHotkeys true = Except.ok parsedCfg ∧
    runActsF on_activate.acts false = (1, some PFault.injectionDenied) ∧
    runActsF on_activate.acts true = (8, none) :=
  ⟨rfl, rfl, by decide, by decide⟩

/-- C2: the listener's state machine has exactly the two modes `Listening`
(the initial mode) and `Stopped` (terminal: a stopped listener ignores every
input); a listening listener moves to `Stopped` on a key combination exactly
when that combination matches the exit binding, and on an external
interrupt; in particular the activation combination leaves it `Listening`. -/
theorem exit_exclusive_transition :
    (∀ m : LMode, m = .Listening ∨ m = .Stopped) ∧
    initSt.mode = .Listening ∧
    (∀ e : InEvent, dispatch ⟨parsedCfg, .Stopped⟩ e = ⟨⟨parsedCfg, .Stopped⟩, [], false⟩) ∧
    (∀ ks : List PKey,
      ((dispatch initSt (.combo ks)).st.mode = .Stopped ↔
        comboMatches EXIT_KEYS ks = true)) ∧
    (dispatch initSt .interrupt).st.mode = .Stopped ∧
    (dispatch initSt (.combo ACT_KEYS)).st.mode = .Listening := by
  refine ⟨fun m => by cases m <;> simp, rfl, fun e => by cases e <;> rfl,
    fun ks => ?_, rfl, by rw [dispatch_act_combo]; rfl⟩
  by_cases hA : comboMatches ACT_KEYS ks = true
  · have hE := not_both_combos ks hA
    have hfind : parsedCfg.find? (fun b => comboMatches b.1 ks) =
        some (ACT_KEYS, on_activate) := by
      rw [parsedCfg_eq]
      simp [List.find?, hA]
    rw [dispatch_combo_act ks hfind]
    simp [initSt, hE]
  · have hA0 : comboMatches ACT_KEYS ks = false := by
      simpa using hA
    by_cases hE : comboMatches EXIT_KEYS ks = true
    · have hfind : parsedCfg.find? (fun b => comboMatches b.1 ks) =
          some (EXIT_KEYS, for_exit) := by
        rw [parsedCfg_eq]
        simp [List.find?, hA0, hE]
      rw [dispatch_combo_exit ks hfind]
      simp [hE]
    · have hE0 : comboMatches EXIT_KEYS ks = false := by
        simpa using hE
      have hfind : parsedCfg.find? (fun b => comboMatches b.1 ks) = none := by
        rw [parsedCfg_eq]
        simp [List.find?, hA0, hE0]
      rw [dispatch_combo_none ks hfind]
      simp [initSt, hE0]

/-- C7: standard output is exactly three startup lines, one line per
activation, and one line on exit: for every N, running N activations
followed by the exit combination prints the three startup lines, then N
copies of the activation notice, then the single exit notice, and nothing
else. -/
theorem stdout_exact_lines :
    startupLines.length = 3 ∧
    printedActs on_activate.acts = ["Hotkey activated. Typing strikethrough."] ∧
    printedActs for_exit.acts = ["Exiting strikethrough script."] ∧
    ∀ n : Nat,
      printedActs (runMain (List.replicate n (.combo ACT_KEYS) ++
          [.combo EXIT_KEYS])).acts =
        startupLines ++ List.replicate n "Hotkey activated. Typing strikethrough." ++
          ["Exiting strikethrough script."] := by
  refine ⟨by decide, rfl, rfl, fun n => ?_⟩
  have h1 := runFrom_replicate_act n
  have h2 := runFrom_append (List.replicate n (.combo ACT_KEYS)) [.combo EXIT_KEYS]
    initSt (by rw [h1])
  simp only [runMain, h2, h1, runFrom_exit_single, printedActs_append,
    printedActs_map_print, printed_flatten_replicate_act]
  simp [printedActs, for_exit]

/-- C8 counterexample: an external interrupt arriving during the blocking
listen is NOT absorbed as a silent normal shutdown: the script installs no
handler for it, so the run ends with the interrupt still uncaught — the
fault surfaces out of the process — contradicting the claim that the
process terminates without the interrupt being surfaced as a fault. -/
theorem interrupt_not_silent :
    (runMain [InEvent.interrupt]).uncaught = true ∧
    ¬(runMain [InEvent.interrupt]).uncaught = false := by decide

/-- C8 (amended): an external interrupt during the blocking listen does end
the run — the listener's scoped registration is exited (mode `Stopped`), no
callback runs, nothing further is printed or injected — but the interrupt is
never caught: it propagates out of the program as an unhandled fault,
whatever activations preceded it. -/
theorem interrupt_uncaught_shutdown :
    (runMain [InEvent.interrupt]).st.mode = LMode.Stopped ∧
    printedActs (runMain [InEvent.interrupt]).acts = startupLines ∧
    keyActs (runMain [InEvent.interrupt]).acts = [] ∧
    ∀ n : Nat,
      (runMain (List.replicate n (.combo ACT_KEYS) ++
        [InEvent.interrupt])).uncaught = true ∧
      (runMain (List.replicate n (.combo ACT_KEYS) ++
        [InEvent.interrupt])).st.mode = LMode.Stopped := by
  refine ⟨by decide, by decide, by decide, fun n => ?_⟩
  have h1 := runFrom_replicate_act n
  have h2 := runFrom_append (List.replicate n (.combo ACT_KEYS)) [InEvent.interrupt]
    initSt (by rw [h1])
  constructor <;> simp [runMain, h2, h1, runFrom_interrupt_single]

/-- C10: the exit notice `Exiting strikethrough script.` is printed on a run
if and only if the exit combination fires on that run; on the concrete run
where an activation is followed by an external interrupt instead of the
exit hotkey, the exit callback never fires, no exit line is printed, and the
interrupt propagates uncaught out of the listener's scoped context. -/
theorem exit_line_iff_exit_fires (evs : List InEvent) :
    ("Exiting strikethrough script." ∈ printedActs (runMain evs).acts ↔
      firesExit evs = true) ∧
    firesExit [InEvent.combo ACT_KEYS, InEvent.interrupt] = false ∧
    ¬"Exiting strikethrough script." ∈
      printedActs (runMain [InEvent.combo ACT_KEYS, InEvent.interrupt]).acts ∧
    (runMain [InEvent.combo ACT_KEYS, InEvent.interrupt]).uncaught = true := by
  refine ⟨?_, by decide, by decide, by decide⟩
  have hs : ¬"Exiting strikethrough script." ∈ startupLines := by decide
  simp only [runMain, printedActs_append, printedActs_map_print, List.mem_append]
  simp [hs, exit_line_runFrom evs]

end Strikethrough
